import Mathlib

/-!
Verification of the nyc4free-to-gc event synchronisation pipeline.

The development shallowly embeds the two Python source files
(`main.py` and `description_scraper.py`).  Pure helpers become Lean
functions; the stateful fetch cache becomes explicit state passing;
raising code returns `Except`.  External collaborators (the HTTP
session, `pytz` timezone conversion, `urljoin`, `json.dumps`, the
BeautifulSoup HTML parse) are abstracted as oracle parameters: the
logic under verification never inspects their internals.
-/

/-! ## Time model

`ms_to_datetime` in `main.py` converts a millisecond epoch timestamp
into a timezone-aware `datetime` in America/New_York.  A zoned
datetime is modelled by its local wall-clock reading (calendar day
index, hour, minute) together with the absolute instant it denotes,
in minutes since an arbitrary epoch.  Subtraction of two aware
datetimes in Python yields the absolute difference, hence durations
are differences of `absMinutes`.  All fields the source compares
(`hour`, `minute`, 23/25-hour duration bounds) are minute-granular,
so the model carries wall time to minute precision. -/
structure ZonedDT where
  wallDay : Int
  wallHour : Nat
  wallMinute : Nat
  absMinutes : Int

/-- Embedding of `start_dt + dt.timedelta(hours=1)` (and similar):
adding a timedelta to an aware datetime shifts the wall clock and the
absolute instant by the same amount. -/
def addWallMinutes (t : ZonedDT) (m : Nat) : ZonedDT :=
  let tot := t.wallHour * 60 + t.wallMinute + m
  { wallDay := t.wallDay + (tot / 1440 : Nat),
    wallHour := tot % 1440 / 60,
    wallMinute := tot % 60,
    absMinutes := t.absMinutes + m }

/-- Embedding of `end_dt - dt.timedelta(days=1)`: subtracting whole
days shifts the wall-clock day and the absolute instant together. -/
def subDays (t : ZonedDT) (d : Int) : ZonedDT :=
  { t with wallDay := t.wallDay - d, absMinutes := t.absMinutes - d * 1440 }

/-- Embedding of the `is_all_day` condition of
`build_google_event_from_item` (`main.py` lines 165-171):
`(start_dt.hour == 0 and start_dt.minute == 0 and
 (end_dt.hour == 0 or end_dt.hour == 23) and end_dt.minute == 0) or
((end_dt - start_dt) >= timedelta(hours=23) and
 (end_dt - start_dt) <= timedelta(hours=25))`. -/
def is_all_day (start_dt end_dt : ZonedDT) : Bool :=
  (start_dt.wallHour == 0 && start_dt.wallMinute == 0 &&
    (end_dt.wallHour == 0 || end_dt.wallHour == 23) && end_dt.wallMinute == 0) ||
  (decide ((23 * 60 : Int) ≤ end_dt.absMinutes - start_dt.absMinutes) &&
    decide (end_dt.absMinutes - start_dt.absMinutes ≤ (25 * 60 : Int)))

/-- Either half of a Google Calendar event time field: all-day events
carry a bare calendar date (`{"date": ...}`), timed events a zoned
timestamp (`{"dateTime": ..., "timeZone": ...}`). -/
inductive GTime where
  | date (day : Int)
  | dateTime (t : ZonedDT)

/-- Embedding of the time-window emission of
`build_google_event_from_item` (`main.py` lines 173-187): for all-day
events take the date portions, move a midnight end back one day, and
add one day to the emitted end date for Google's exclusive-end
convention; otherwise emit the full timestamps. -/
def build_time_fields (start_dt end_dt : ZonedDT) : GTime × GTime :=
  if is_all_day start_dt end_dt then
    let start_date := start_dt.wallDay
    let end_date :=
      if end_dt.wallHour = 0 ∧ end_dt.wallMinute = 0 then
        (subDays end_dt 1).wallDay
      else
        end_dt.wallDay
    (GTime.date start_date, GTime.date (end_date + 1))
  else
    (GTime.dateTime start_dt, GTime.dateTime end_dt)

/-! ## String utilities

In this Lean version a `String` wraps a `List Char`, so the Python
string operations are embedded as `List Char` functions together with
`String`-level wrappers.  Basic `String` append lemmas are proved here
because the development reasons about raw character data. -/

/-- Character class removed by Python `str.strip()` with no argument
(ASCII portion; the inputs of this pipeline are ASCII-delimited). -/
def isPySpace (c : Char) : Bool :=
  c == ' ' || c == '\t' || c == '\n' || c == '\r' || c == '\x0b' || c == '\x0c'

/-- Removal of trailing characters satisfying `p` (the right half of
Python `str.strip()`). -/
def dropTrailing (p : Char → Bool) (l : List Char) : List Char :=
  (l.reverse.dropWhile p).reverse

/-- Embedding of Python `str.strip()`: drop leading and trailing
whitespace characters. -/
def pyStrip (l : List Char) : List Char :=
  dropTrailing isPySpace (l.dropWhile isPySpace)

/-- String-level wrapper of `pyStrip`. -/
def pyStripS (s : String) : String :=
  ⟨pyStrip s.data⟩

/-- Embedding of Python `sep.join(parts)`. -/
def joinSep (sep : String) : List String → String
  | [] => ""
  | [x] => x
  | x :: xs => x ++ sep ++ joinSep sep xs

/-! ## Raw listing items and the composed description

`RawListingItem` in the spec is a loosely-typed mapping; the fields
`build_google_event_from_item` (`main.py`) actually reads are modelled
as a structure.  An absent or null string-valued key and an empty
string are both falsy in the Python code, so absence of a text field
is represented by `""`; absent sub-mappings and timestamps are
`Option`s.  The `json.dumps(item, indent=2)` serialisation of the
original dict is abstracted as an oracle `dumps : RawItem → String`
since the builder never inspects it. -/

structure NycLocation where
  addressTitle : String := ""
  addressLine1 : String := ""
  addressLine2 : String := ""
  addressCountry : String := ""

structure NycAuthor where
  displayName : String := ""
  firstName : String := ""
  lastName : String := ""

/-- Fields of one upstream listing item that the builder reads.
`structuredStart`/`structuredEnd` model `structuredContent.startDate`
and `structuredContent.endDate`. -/
structure RawItem where
  title : String := ""
  location : Option NycLocation := none
  structuredStart : Option Int := none
  structuredEnd : Option Int := none
  startDate : Option Int := none
  endDate : Option Int := none
  excerpt : String := ""
  tags : List String := []
  author : Option NycAuthor := none
  fullUrl : String := ""

/-- Site origin constant `NYC_BASE_URL` of `main.py`. -/
def NYC_BASE_URL : String := "https://www.nycforfree.co"

/-- Marker constant `IMPORT_MARKER` of `main.py`. -/
def IMPORT_MARKER : String := "Imported from nycforfree.co"

/-- Embedding of the author-name fallback of
`build_google_event_from_item`:
`author.get("displayName") or
 f"{author.get('firstName','').strip()} {author.get('lastName','').strip()}".strip()`. -/
def author_name (a : NycAuthor) : String :=
  if a.displayName ≠ "" then a.displayName
  else pyStripS (pyStripS a.firstName ++ " " ++ pyStripS a.lastName)

/-- Local `source_url` of the builder:
`f"{NYC_BASE_URL.rstrip('/')}{full_url}" if full_url else ""`
(the constant has no trailing slash, so `rstrip` is the identity). -/
def source_url (item : RawItem) : String :=
  if item.fullUrl = "" then "" else NYC_BASE_URL ++ item.fullUrl

/-- Local `tags_str` of the builder:
`f"Tags: {', '.join(tags)}" if tags else ""`. -/
def tags_str (item : RawItem) : String :=
  if item.tags.isEmpty then "" else "Tags: " ++ joinSep ", " item.tags

/-- Local `author_name` of the builder, applied to
`item.get("author") or {}`. -/
def item_author_name (item : RawItem) : String :=
  author_name (item.author.getD {})

/-- Local `address_line1` of the builder:
`location_obj.get('addressLine1', '').strip()`. -/
def address_line1 (item : RawItem) : String :=
  pyStripS (item.location.getD {}).addressLine1

/-- Local `address_line2` of the builder:
`location_obj.get('addressLine2', '').strip()`. -/
def address_line2 (item : RawItem) : String :=
  pyStripS (item.location.getD {}).addressLine2

/-- Local `debug_info_str` of the builder: the only live entry of the
`debug_info` list (the marker and source entries are commented out in
the source), so the `"\n\n".join(filter(None, ...))` reduces to the
single raw-JSON entry. -/
def debug_info_str (dumps : RawItem → String) (item : RawItem) : String :=
  "Raw item JSON:\n" ++ dumps item

/-- Middle conditional appends of `description_parts` in the builder,
in source order: full-information line, raw excerpt, location block,
tags line, listed-by line.  Each Python
`if cond: description_parts.append(x)` becomes an
`if cond then [x] else []` segment. -/
def description_mid (item : RawItem) : List String :=
  (if source_url item ≠ "" then ["Full Information: " ++ source_url item] else []) ++
  (if pyStripS item.excerpt ≠ "" then [pyStripS item.excerpt] else []) ++
  (if address_line1 item ≠ "" ∨ address_line2 item ≠ "" then
    ["Location:"] ++
    (if address_line1 item ≠ "" then [address_line1 item] else []) ++
    (if address_line2 item ≠ "" then [address_line2 item] else [])
  else []) ++
  (if tags_str item ≠ "" then [tags_str item] else []) ++
  (if item_author_name item ≠ "" then ["Listed by: " ++ item_author_name item] else [])

/-- Full `description_parts` list of the builder: the import marker
(when not in delete-only mode), the middle conditional sections, and
the final debug section. -/
def description_parts (delete_only : Bool) (dumps : RawItem → String) (item : RawItem) :
    List String :=
  (if !delete_only then [IMPORT_MARKER] else []) ++
  description_mid item ++
  [debug_info_str dumps item]

/-- Embedding of
`description = "\n\n".join(filter(None, description_parts))`. -/
def build_description (delete_only : Bool) (dumps : RawItem → String) (item : RawItem) :
    String :=
  joinSep "\n\n" ((description_parts delete_only dumps item).filter (fun s => s != ""))

/-- Substring test over raw character data, used to state negative
facts about composed descriptions. -/
def hasSub (needle : List Char) : List Char → Bool
  | [] => needle.isEmpty
  | c :: rest => needle.isPrefixOf (c :: rest) || hasSub needle rest

/-- Description composition as the amended claim words it: one
blank-line-joined list of nine optional slots in fixed order — import
marker (outside delete-only mode), full-information line, bare
stripped excerpt (no heading), "Location:" heading, address line 1,
address line 2, tags line, listed-by line, raw-JSON section — where
empty slots are omitted.  This definition follows the amended claim's
words; the theorem below compares it with the builder's definition. -/
def claim_c2_description_amended (delete_only : Bool) (dumps : RawItem → String)
    (item : RawItem) : String :=
  joinSep "\n\n" (List.filter (fun s => s != "")
    [ if delete_only then "" else IMPORT_MARKER,
      if item.fullUrl = "" then "" else "Full Information: " ++ NYC_BASE_URL ++ item.fullUrl,
      pyStripS item.excerpt,
      if address_line1 item = "" ∧ address_line2 item = "" then "" else "Location:",
      address_line1 item,
      address_line2 item,
      if item.tags.isEmpty then "" else "Tags: " ++ joinSep ", " item.tags,
      if item_author_name item = "" then "" else "Listed by: " ++ item_author_name item,
      "Raw item JSON:\n" ++ dumps item ])

/-! ## The full event builder and the batch loop -/

/-- Calendar event draft returned by the builder (the Python dict with
keys summary, location, start, end, description). -/
structure GEvent where
  summary : String
  location : String
  startField : GTime
  endField : GTime
  description : String

/-- Python `a or b` over optional millisecond timestamps: falls
through both on `None` and on the falsy value `0`. -/
def pyOrInt (a b : Option Int) : Option Int :=
  match a with
  | some v => if v = 0 then b else some v
  | none => b

/-- Embedding of `build_google_event_from_item` (`main.py`): the
timezone conversion `ms_to_datetime` and `json.dumps` are oracle
parameters; a missing usable start timestamp yields `Except.error`,
mirroring the raised `ValueError`; an absent end defaults to start
plus one hour. -/
def build_google_event (ms_to_dt : Int → ZonedDT) (dumps : RawItem → String)
    (delete_only : Bool) (item : RawItem) : Except String GEvent :=
  let summary := if item.title = "" then "NYC for FREE event" else item.title
  let location_obj := item.location.getD {}
  let address_parts := [location_obj.addressTitle, location_obj.addressLine1,
    location_obj.addressLine2, location_obj.addressCountry].filter (fun s => s != "")
  let location := joinSep ", " address_parts
  match pyOrInt item.structuredStart item.startDate with
  | none => Except.error "No start date in item"
  | some start_ms =>
    let start_dt := ms_to_dt start_ms
    let end_dt :=
      match pyOrInt item.structuredEnd item.endDate with
      | some end_ms => ms_to_dt end_ms
      | none => addWallMinutes start_dt 60
    let fields := build_time_fields start_dt end_dt
    Except.ok
      { summary := summary, location := location,
        startField := fields.1, endField := fields.2,
        description := build_description delete_only dumps item }

/-- One iteration of the build loop in `main` (`main.py` lines
362-367): append on success, count the caught failure otherwise. -/
def build_step (ms_to_dt : Int → ZonedDT) (dumps : RawItem → String)
    (acc : List GEvent × Nat) (item : RawItem) : List GEvent × Nat :=
  match build_google_event ms_to_dt dumps false item with
  | Except.ok e => (acc.1 ++ [e], acc.2)
  | Except.error _ => (acc.1, acc.2 + 1)

/-- Embedding of the per-item build loop of `main`: the built events
in order together with the `failed_builds` counter. -/
def build_events_loop (ms_to_dt : Int → ZonedDT) (dumps : RawItem → String)
    (items : List RawItem) : List GEvent × Nat :=
  items.foldl (build_step ms_to_dt dumps) ([], 0)

/-! ## Description fetcher and cache -/

/-- Result fields extracted from a detail page (the `EventDetails`
dataclass of `description_scraper.py`); every field defaults to the
empty string. -/
structure EventDetails where
  description : String := ""
  external_url : String := ""
  external_label : String := ""
  poster_image_url : String := ""

/-- Association-list lookup for the memo table keyed by absolute
URL. -/
def lookupCache (k : String) :
    List (String × EventDetails) → Option EventDetails
  | [] => none
  | (k', v) :: rest => if k' = k then some v else lookupCache k rest

/-- Removal of a key, used for the recency refresh on a cache hit. -/
def eraseKey (k : String) :
    List (String × EventDetails) → List (String × EventDetails)
  | [] => []
  | (k', v) :: rest => if k' = k then eraseKey k rest else (k', v) :: eraseKey k rest

/-- Scraper-instance state: the `@lru_cache(maxsize=512)` memo table
of `_cached_fetch` (most recent first) and a count of network requests
issued through the session. -/
structure ScraperState where
  cache : List (String × EventDetails) := []
  requestCount : Nat := 0

/-- Embedding of `EventDescriptionScraper._cached_fetch`: a cache hit
returns the stored result with no I/O (refreshing recency); a miss
issues one request through the `net` oracle (`some body` for a 2xx
response, `none` for a transport error or a non-success status raised
by `raise_for_status`), parses the body via the `extract` oracle on
success, degrades to the default `EventDetails` on failure, and
stores the result either way, evicting the oldest entry beyond the
512-entry bound. -/
def cached_fetch (net : String → Option String) (extract : String → EventDetails)
    (st : ScraperState) (full_url : String) : EventDetails × ScraperState :=
  match lookupCache full_url st.cache with
  | some d => (d, { st with cache := (full_url, d) :: eraseKey full_url st.cache })
  | none =>
    let d := match net full_url with
      | some body => extract body
      | none => {}
    let c := (full_url, d) :: st.cache
    (d, { cache := if c.length > 512 then c.dropLast else c,
          requestCount := st.requestCount + 1 })

/-! ## Listings-API shape handling -/

/-- JSON values, as far as the listings-API shape handling observes
them. -/
inductive Json where
  | null
  | boolean (b : Bool)
  | number (n : Int)
  | str (s : String)
  | arr (elems : List Json)
  | obj (fields : List (String × Json))

/-- Shape handling of `fetch_month_items` (`main.py` lines 85-94)
after the HTTP layer: a body that parsed as a list is returned as the
item list; any other shape is logged as a warning and yields the empty
list. -/
def fetch_month_items_shape : Json → List Json
  | Json.arr xs => xs
  | _ => []

/-- Discriminator for list-shaped JSON bodies. -/
def Json.isArr : Json → Bool
  | Json.arr _ => true
  | _ => false

/-! ## External-link extraction -/

/-- A button anchor as the extractor observes it: its `href` attribute
(`anchor.get("href") or ""`) and its stripped visible text. -/
structure Anchor where
  href : String := ""
  text : String := ""

/-- Boolean embedding of Python `str.startswith`. -/
def startsWithS (pre s : String) : Bool :=
  pre.data.isPrefixOf s.data

/-- Embedding of `EventDescriptionScraper._normalize_href`: an empty
href maps to the empty string, anything else goes through the
`urljoin` oracle against `base + "/"`. -/
def normalize_href (uj : String → String → String) (base href : String) : String :=
  if href = "" then "" else uj (base ++ "/") href

/-- Embedding of `EventDescriptionScraper._extract_external_link`
(`description_scraper.py` lines 116-136): scan the button anchors in
document order; skip entries whose normalized href is empty, has a
mailto/tel scheme, or starts with the site's own base URL; return the
first survivor with its label defaulting to "Official Link"; return
the empty pair when nothing survives. -/
def extract_external_link (uj : String → String → String) (base : String) :
    List Anchor → String × String
  | [] => ("", "")
  | a :: rest =>
    let normalized := normalize_href uj base (pyStripS a.href)
    if normalized = "" then extract_external_link uj base rest
    else if startsWithS "mailto:" normalized || startsWithS "tel:" normalized then
      extract_external_link uj base rest
    else if startsWithS base normalized then extract_external_link uj base rest
    else (normalized, if a.text = "" then "Official Link" else a.text)

/-! ## Text normalizer

`_cleanup_text` in `description_scraper.py`:
`value.replace("\r\n", "\n").replace("\r", "\n")`, then
`re.sub(r"\n{3,}", "\n\n", value)`, then `value.strip()`.
The two `str.replace` calls become structural recursions over the
character list (leftmost, non-overlapping, exactly as `str.replace`);
the regular expression, which rewrites every maximal run of three or
more newlines to exactly two, becomes `capNL`, which caps each
maximal newline run at two characters — the same transformation,
since runs of one or two newlines are untouched by both. -/

/-- Embedding of `value.replace("\r\n", "\n")`. -/
def replaceCRLF : List Char → List Char
  | [] => []
  | [c] => [c]
  | c :: d :: rest =>
    if c = '\r' ∧ d = '\n' then '\n' :: replaceCRLF rest
    else c :: replaceCRLF (d :: rest)

/-- Embedding of `value.replace("\r", "\n")`. -/
def replaceCR (l : List Char) : List Char :=
  l.map (fun c => if c = '\r' then '\n' else c)

/-- Embedding of `re.sub(r"\n{3,}", "\n\n", value)`: `k` counts the
newlines already emitted in the current run; once two have been
emitted, further newlines of the run are dropped. -/
def capNL : Nat → List Char → List Char
  | _, [] => []
  | k, c :: rest =>
    if c = '\n' then
      if 2 ≤ k then capNL k rest else '\n' :: capNL (k + 1) rest
    else c :: capNL 0 rest

/-- Embedding of `_cleanup_text` (`description_scraper.py` lines
182-190), including the falsy-input early return. -/
def cleanup_text (s : String) : String :=
  if s = "" then ""
  else ⟨pyStrip (capNL 0 (replaceCR (replaceCRLF s.data)))⟩

/-- No carriage return occurs in the text. -/
def noCR (l : List Char) : Bool :=
  l.all (fun c => c != '\r')

/-- No three consecutive newline characters occur in the text. -/
def noTripleNL : List Char → Bool
  | [] => true
  | [_] => true
  | [_, _] => true
  | a :: b :: c :: rest =>
    !(a == '\n' && b == '\n' && c == '\n') && noTripleNL (b :: c :: rest)

/-- Length of the leading newline run. -/
def leadNL (l : List Char) : Nat :=
  (l.takeWhile (fun c => c == '\n')).length

/-- Neither end of the text carries strippable whitespace. -/
def noEdgeSpace (l : List Char) : Bool :=
  (l.head?.all fun c => !isPySpace c) && (l.getLast?.all fun c => !isPySpace c)

/-- Line-ending unification as the amended claim words it: every
`\r\n` pair becomes a single `\n`, every remaining `\r` becomes `\n`,
and every other character is kept.  This definition follows the
amended claim's words; the refinement theorem below compares the
normalizer's replace-replace stage with it. -/
def unifyNewlinesSpec : List Char → List Char
  | [] => []
  | [c] => [if c = '\r' then '\n' else c]
  | c :: d :: rest =>
    if c = '\r' ∧ d = '\n' then '\n' :: unifyNewlinesSpec rest
    else (if c = '\r' then '\n' else c) :: unifyNewlinesSpec (d :: rest)

/-- Newline-run collapsing as the amended claim words it: each maximal
run of newline characters is replaced by exactly two newlines when it
has three or more, kept unchanged when it has one or two, and every
other character is copied in order.  This definition follows the
amended claim's words; the refinement theorem below compares the
normalizer's run-capping stage with it. -/
def collapseRunsSpec : List Char → List Char
  | [] => []
  | c :: rest =>
    if c = '\n' then
      List.replicate (min (1 + leadNL rest) 2) '\n' ++
        collapseRunsSpec (rest.dropWhile (fun d => d == '\n'))
    else c :: collapseRunsSpec rest
termination_by l => l.length
decreasing_by
  all_goals simp_wf
  all_goals
    have hlen := congrArg List.length
      (List.takeWhile_append_dropWhile (p := fun d => d == '\n') (l := rest))
    rw [List.length_append] at hlen
    omega

/-- C1: the builder classifies an event as all-day exactly when either
(a) the start is at local midnight and the end is at local midnight or
23:00 with zero minutes, or (b) the end-minus-start duration lies
within [23 hours, 25 hours] inclusive; in particular a 24h05m span
starting away from midnight is all-day and a 22h span starting away
from midnight is not. -/
theorem all_day_classification_iff :
    (∀ start_dt end_dt : ZonedDT,
      is_all_day start_dt end_dt = true ↔
        ((start_dt.wallHour = 0 ∧ start_dt.wallMinute = 0 ∧
            (end_dt.wallHour = 0 ∨ end_dt.wallHour = 23) ∧ end_dt.wallMinute = 0) ∨
          ((23 * 60 : Int) ≤ end_dt.absMinutes - start_dt.absMinutes ∧
            end_dt.absMinutes - start_dt.absMinutes ≤ (25 * 60 : Int)))) ∧
    is_all_day ⟨0, 10, 0, 0⟩ ⟨1, 10, 5, 1445⟩ = true ∧
    is_all_day ⟨0, 10, 0, 0⟩ ⟨1, 8, 0, 1320⟩ = false := by
  refine ⟨fun s e => ?_, by decide, by decide⟩
  simp [is_all_day, Bool.or_eq_true, Bool.and_eq_true, beq_iff_eq,
    decide_eq_true_eq, and_assoc]

/-- C7: for every all-day-classified event whose end timestamp is
exactly at local midnight, the emitted exclusive end date is the
calendar date of that midnight instant: the represented end date is
moved to the previous day and then incremented by one. -/
theorem all_day_midnight_end_date (start_dt end_dt : ZonedDT)
    (h : is_all_day start_dt end_dt = true)
    (hh : end_dt.wallHour = 0) (hm : end_dt.wallMinute = 0) :
    (build_time_fields start_dt end_dt).2 = GTime.date end_dt.wallDay := by
  unfold build_time_fields
  rw [if_pos h, if_pos ⟨hh, hm⟩]
  simp [subDays]

/-- C7 witness: a start at 00:00 local on day 5 with end at 00:00
local on day 6 is classified all-day and the emitted end date is day
6 = start date + 1. -/
theorem all_day_midnight_end_date_witness :
    is_all_day ⟨5, 0, 0, 0⟩ ⟨6, 0, 0, 1440⟩ = true ∧
    (build_time_fields ⟨5, 0, 0, 0⟩ ⟨6, 0, 0, 1440⟩).2 = GTime.date (5 + 1) :=
  ⟨by decide, all_day_midnight_end_date ⟨5, 0, 0, 0⟩ ⟨6, 0, 0, 1440⟩ (by decide) rfl rfl⟩

theorem str_data_append (s t : String) : (s ++ t).data = s.data ++ t.data := by
  cases s; cases t; rfl

theorem str_ext {s t : String} (h : s.data = t.data) : s = t := by
  cases s; cases t; exact congrArg String.mk h

theorem str_empty_append (s : String) : "" ++ s = s :=
  str_ext (by rw [str_data_append]; rfl)

theorem str_append_assoc (a b c : String) : a ++ b ++ c = a ++ (b ++ c) :=
  str_ext (by simp [str_data_append])

theorem str_append_ne_empty (s t : String) (h : s.data ≠ []) : s ++ t ≠ "" := by
  intro he
  apply h
  have hd := congrArg String.data he
  rw [str_data_append] at hd
  have hnil : s.data ++ t.data = [] := by simpa using hd
  exact (List.append_eq_nil.mp hnil).1

theorem joinSep_cons_of_ne_nil (sep x : String) (xs : List String) (h : xs ≠ []) :
    joinSep sep (x :: xs) = x ++ sep ++ joinSep sep xs := by
  cases xs with
  | nil => exact absurd rfl h
  | cons y ys => rfl

theorem joinSep_last (sep : String) :
    ∀ (L : List String) (b : String), ∃ m : String, joinSep sep (L ++ [b]) = m ++ b := by
  intro L
  induction L with
  | nil =>
    intro b
    refine ⟨"", ?_⟩
    rw [List.nil_append, str_empty_append]
    rfl
  | cons x L ih =>
    intro b
    obtain ⟨m, hm⟩ := ih b
    refine ⟨x ++ sep ++ m, ?_⟩
    rw [List.cons_append, joinSep_cons_of_ne_nil sep x (L ++ [b]) (by simp), hm,
      str_append_assoc (x ++ sep) m b]

/-- C10: outside delete-only mode, every composed description has the
fixed import marker as its first blank-line-separated section and the
raw-JSON section, embedding the serialized item under the
"Raw item JSON:" heading, as its final section. -/
theorem import_marker_first_raw_json_last (dumps : RawItem → String) (item : RawItem) :
    ∃ mid : String,
      build_description false dumps item =
        IMPORT_MARKER ++ "\n\n" ++ (mid ++ ("Raw item JSON:\n" ++ dumps item)) := by
  have hB : debug_info_str dumps item ≠ "" := str_append_ne_empty _ _ (by decide)
  have hM : (IMPORT_MARKER != "") = true := by decide
  have hfil : (description_parts false dumps item).filter (fun s => s != "") =
      IMPORT_MARKER :: ((description_mid item).filter (fun s => s != "") ++
        [debug_info_str dumps item]) := by
    simp [description_parts, List.filter_append, List.filter_cons, hB, hM, bne_iff_ne]
  obtain ⟨m, hm⟩ := joinSep_last "\n\n"
    ((description_mid item).filter (fun s => s != "")) (debug_info_str dumps item)
  refine ⟨m, ?_⟩
  unfold build_description
  rw [hfil, joinSep_cons_of_ne_nil _ _ _ (by simp), hm]
  rfl

/-- C2 counterexample: for an item with a detail path and a non-empty
excerpt, the composed description starts with the import marker (not
the "Full Information" section), places the bare excerpt before any
location data with no "About:" heading anywhere, and ends with a raw
JSON section — contradicting the claimed five-section composition. -/
theorem description_composition_counterexample :
    build_description false (fun _ => "\x7b\x7d")
        { excerpt := "Fun", fullUrl := "/calendar/x" } =
      "Imported from nycforfree.co\n\nFull Information: https://www.nycforfree.co/calendar/x\n\nFun\n\nRaw item JSON:\n\x7b\x7d" ∧
    hasSub "About:".data
      (build_description false (fun _ => "\x7b\x7d")
        { excerpt := "Fun", fullUrl := "/calendar/x" }).data = false := by
  decide

set_option maxHeartbeats 1600000 in
/-- C2 amended: the composed description equals the nine-slot
fixed-order blank-line-joined composition described by the amended
claim, for every item, serializer and mode. -/
theorem description_composition_amended (delete_only : Bool) (dumps : RawItem → String)
    (item : RawItem) :
    build_description delete_only dumps item =
      claim_c2_description_amended delete_only dumps item := by
  have hURL : NYC_BASE_URL ++ item.fullUrl ≠ "" := str_append_ne_empty _ _ (by decide)
  have hFI : ∀ s : String, "Full Information: " ++ s ≠ "" :=
    fun s => str_append_ne_empty _ _ (by decide)
  have hTags : "Tags: " ++ joinSep ", " item.tags ≠ "" := str_append_ne_empty _ _ (by decide)
  have hListed : "Listed by: " ++ item_author_name item ≠ "" :=
    str_append_ne_empty _ _ (by decide)
  have hRaw : "Raw item JSON:\n" ++ dumps item ≠ "" := str_append_ne_empty _ _ (by decide)
  have hM : (IMPORT_MARKER : String) ≠ "" := by decide
  have hLoc : ("Location:" : String) ≠ "" := by decide
  unfold build_description claim_c2_description_amended description_parts description_mid
    debug_info_str source_url tags_str
  split_ifs <;>
    simp_all [List.filter_append, List.filter_cons, List.filter_nil, bne_iff_ne,
      str_append_assoc]

theorem build_events_loop_shift (ms_to_dt : Int → ZonedDT) (dumps : RawItem → String) :
    ∀ (items : List RawItem) (acc : List GEvent × Nat),
      items.foldl (build_step ms_to_dt dumps) acc =
        (acc.1 ++ (build_events_loop ms_to_dt dumps items).1,
          acc.2 + (build_events_loop ms_to_dt dumps items).2) := by
  intro items
  induction items with
  | nil => intro acc; simp [build_events_loop]
  | cons it rest ih =>
    intro acc
    simp only [List.foldl_cons, build_events_loop]
    cases hb : build_google_event ms_to_dt dumps false it with
    | ok e =>
      rw [show build_step ms_to_dt dumps acc it = (acc.1 ++ [e], acc.2) from by
          simp [build_step, hb],
        show build_step ms_to_dt dumps ([], 0) it = (([e] : List GEvent), 0) from by
          simp [build_step, hb],
        ih (acc.1 ++ [e], acc.2), ih ([e], 0)]
      simp [build_events_loop, List.append_assoc]
    | error msg =>
      rw [show build_step ms_to_dt dumps acc it = (acc.1, acc.2 + 1) from by
          simp [build_step, hb],
        show build_step ms_to_dt dumps ([], 0) it = (([] : List GEvent), 1) from by
          simp [build_step, hb],
        ih (acc.1, acc.2 + 1), ih ([], 1)]
      simp [build_events_loop]
      omega

/-- C3: an item with no start timestamp at top level nor under the
structured-content sub-mapping fails to build with a validation error
(never a silent default), and the batch loop counts the failure and
builds all remaining items exactly as if the bad item were absent. -/
theorem missing_start_error_and_loop_continues (ms_to_dt : Int → ZonedDT)
    (dumps : RawItem → String) (item : RawItem) (pre post : List RawItem)
    (h1 : item.structuredStart = none) (h2 : item.startDate = none) :
    build_google_event ms_to_dt dumps false item = Except.error "No start date in item" ∧
    build_events_loop ms_to_dt dumps (pre ++ item :: post) =
      ((build_events_loop ms_to_dt dumps (pre ++ post)).1,
        (build_events_loop ms_to_dt dumps (pre ++ post)).2 + 1) := by
  have herr : build_google_event ms_to_dt dumps false item =
      Except.error "No start date in item" := by
    unfold build_google_event
    rw [h1, h2]
    rfl
  refine ⟨herr, ?_⟩
  unfold build_events_loop
  rw [List.foldl_append, List.foldl_append, List.foldl_cons,
    show build_step ms_to_dt dumps
        (List.foldl (build_step ms_to_dt dumps) ([], 0) pre) item =
      ((List.foldl (build_step ms_to_dt dumps) ([], 0) pre).1,
        (List.foldl (build_step ms_to_dt dumps) ([], 0) pre).2 + 1) from by
      simp [build_step, herr],
    build_events_loop_shift ms_to_dt dumps post,
    build_events_loop_shift ms_to_dt dumps post]
  simp
  omega

/-- C3 witness: a field-free item has no start timestamp, building it
fails with the validation error, and a batch of that item followed by
a well-formed item builds the good item while counting one failure. -/
theorem missing_start_witness :
    ({} : RawItem).structuredStart = none ∧ ({} : RawItem).startDate = none ∧
    (build_google_event (fun _ => ⟨0, 0, 0, 0⟩) (fun _ => "") false {} =
        Except.error "No start date in item" ∧
      build_events_loop (fun _ => ⟨0, 0, 0, 0⟩) (fun _ => "")
          ([] ++ ({} : RawItem) :: [{ startDate := some 1 }]) =
        ((build_events_loop (fun _ => ⟨0, 0, 0, 0⟩) (fun _ => "")
            ([] ++ [({ startDate := some 1 } : RawItem)])).1,
          (build_events_loop (fun _ => ⟨0, 0, 0, 0⟩) (fun _ => "")
            ([] ++ [({ startDate := some 1 } : RawItem)])).2 + 1)) :=
  ⟨rfl, rfl,
    missing_start_error_and_loop_continues (fun _ => ⟨0, 0, 0, 0⟩) (fun _ => "") {}
      [] [{ startDate := some 1 }] rfl rfl⟩

theorem dropLast_cons_of_ne_nil {α : Type} (a : α) (l : List α) (h : l ≠ []) :
    (a :: l).dropLast = a :: l.dropLast := by
  cases l with
  | nil => exact absurd rfl h
  | cons b t => rfl

theorem cached_fetch_hit (net : String → Option String) (extract : String → EventDetails)
    (st : ScraperState) (url : String) (d : EventDetails)
    (h : lookupCache url st.cache = some d) :
    cached_fetch net extract st url =
      (d, { st with cache := (url, d) :: eraseKey url st.cache }) := by
  unfold cached_fetch
  rw [h]

theorem cached_fetch_miss_parts (net : String → Option String)
    (extract : String → EventDetails) (st : ScraperState) (url : String)
    (h : lookupCache url st.cache = none) :
    (cached_fetch net extract st url).1 =
      (match net url with | some body => extract body | none => ({} : EventDetails)) ∧
    (cached_fetch net extract st url).2.requestCount = st.requestCount + 1 ∧
    lookupCache url (cached_fetch net extract st url).2.cache =
      some (cached_fetch net extract st url).1 := by
  unfold cached_fetch
  rw [h]
  refine ⟨rfl, rfl, ?_⟩
  show lookupCache url
      (if ((url, _) :: st.cache).length > 512
        then ((url, _) :: st.cache).dropLast
        else (url, _) :: st.cache) = _
  split
  · rename_i hlen
    have hne : st.cache ≠ [] := by
      intro hnil
      rw [hnil] at hlen
      simp at hlen
    rw [dropLast_cons_of_ne_nil _ _ hne]
    simp [lookupCache]
  · simp [lookupCache]

/-- C5: on a cold URL, two successive fetches issue exactly one
request (the second is served from the cache and returns the same
result), and a failed fetch stores and returns the default empty
result, so the URL is not retried. -/
theorem cached_fetch_once (net : String → Option String)
    (extract : String → EventDetails) (st : ScraperState) (url : String)
    (h : lookupCache url st.cache = none) :
    (cached_fetch net extract (cached_fetch net extract st url).2 url).2.requestCount =
      st.requestCount + 1 ∧
    (cached_fetch net extract (cached_fetch net extract st url).2 url).1 =
      (cached_fetch net extract st url).1 ∧
    (net url = none →
      (cached_fetch net extract st url).1 = {} ∧
      lookupCache url (cached_fetch net extract st url).2.cache = some {}) := by
  obtain ⟨hv, hrc, hlk⟩ := cached_fetch_miss_parts net extract st url h
  have hsecond := cached_fetch_hit net extract (cached_fetch net extract st url).2 url
    (cached_fetch net extract st url).1 hlk
  refine ⟨?_, ?_, ?_⟩
  · rw [hsecond]
    exact hrc
  · rw [hsecond]
  · intro hnone
    rw [hnone] at hv
    exact ⟨hv, by rw [hlk, hv]⟩

/-- C5 witness: from an empty cache, fetching a failing URL twice
leaves the request count at one, returns the empty result both times,
and caches the empty result. -/
theorem cached_fetch_once_witness :
    lookupCache "https://www.nycforfree.co/calendar/x" ({} : ScraperState).cache = none ∧
    ((cached_fetch (fun _ => none) (fun _ => {})
        (cached_fetch (fun _ => none) (fun _ => {}) {}
          "https://www.nycforfree.co/calendar/x").2
        "https://www.nycforfree.co/calendar/x").2.requestCount =
      ({} : ScraperState).requestCount + 1 ∧
    (cached_fetch (fun _ => none) (fun _ => {})
        (cached_fetch (fun _ => none) (fun _ => {}) {}
          "https://www.nycforfree.co/calendar/x").2
        "https://www.nycforfree.co/calendar/x").1 =
      (cached_fetch (fun _ => none) (fun _ => {}) {}
        "https://www.nycforfree.co/calendar/x").1 ∧
    ((fun (_ : String) => (none : Option String))
        "https://www.nycforfree.co/calendar/x" = none →
      (cached_fetch (fun _ => none) (fun _ => {}) {}
        "https://www.nycforfree.co/calendar/x").1 = {} ∧
      lookupCache "https://www.nycforfree.co/calendar/x"
        (cached_fetch (fun _ => none) (fun _ => {}) {}
          "https://www.nycforfree.co/calendar/x").2.cache = some {})) :=
  ⟨rfl, cached_fetch_once (fun _ => none) (fun _ => {}) {}
    "https://www.nycforfree.co/calendar/x" rfl⟩

/-- C6 counterexample: a wrapped object carrying the item list under
the natural candidate key "items" yields zero items — the code never
probes wrapper keys for the list, contradicting the claimed
candidate-key probing and whole-body fallback. -/
theorem wrapped_items_counterexample :
    fetch_month_items_shape (Json.obj [("items", Json.arr [Json.null])]) = [] ∧
    fetch_month_items_shape (Json.obj [("items", Json.arr [Json.null])]) ≠ [Json.null] :=
  ⟨rfl, by intro hc; exact absurd hc (by simp [fetch_month_items_shape])⟩

/-- C6 amended: the month fetch returns the body itself when the JSON
body is a raw list, and any non-list body — wrapped objects included —
is logged and treated as zero items; the shape handling itself is
total and never raises. -/
theorem month_items_shape_amended :
    (∀ xs : List Json, fetch_month_items_shape (Json.arr xs) = xs) ∧
    (∀ j : Json, j.isArr = false → fetch_month_items_shape j = []) := by
  refine ⟨fun xs => rfl, fun j hj => ?_⟩
  cases j <;> simp_all [Json.isArr, fetch_month_items_shape]

/-- C6 witness: an object body is not list-shaped and yields zero
items. -/
theorem month_items_shape_amended_witness :
    (Json.obj []).isArr = false ∧ fetch_month_items_shape (Json.obj []) = [] :=
  ⟨rfl, month_items_shape_amended.2 (Json.obj []) rfl⟩

/-- C8: when every button anchor's resolved URL is on the site's own
origin or uses a mailto/tel scheme, the extractor returns the empty
external link and empty label. -/
theorem self_and_mailto_links_suppressed (uj : String → String → String) (base : String)
    (anchors : List Anchor)
    (h : ∀ a ∈ anchors,
      startsWithS base (normalize_href uj base (pyStripS a.href)) = true ∨
      startsWithS "mailto:" (normalize_href uj base (pyStripS a.href)) = true ∨
      startsWithS "tel:" (normalize_href uj base (pyStripS a.href)) = true) :
    extract_external_link uj base anchors = ("", "") := by
  induction anchors with
  | nil => rfl
  | cons a rest ih =>
    have ha := h a (List.mem_cons_self a rest)
    have hrest := ih (fun x hx => h x (List.mem_cons_of_mem a hx))
    simp only [extract_external_link]
    split_ifs <;> simp_all

theorem bool_and_mp {a b : Bool} (h : (a && b) = true) : a = true ∧ b = true := by
  rw [Bool.and_eq_true] at h
  exact h

theorem bool_and_mpr {a b : Bool} (h1 : a = true) (h2 : b = true) : (a && b) = true := by
  rw [Bool.and_eq_true]
  exact ⟨h1, h2⟩

theorem capNL_cons_nl_ge (k : Nat) (rest : List Char) (h2 : 2 ≤ k) :
    capNL k ('\n' :: rest) = capNL k rest := by
  simp [capNL, h2]

theorem capNL_cons_nl_lt (k : Nat) (rest : List Char) (h2 : ¬ 2 ≤ k) :
    capNL k ('\n' :: rest) = '\n' :: capNL (k + 1) rest := by
  simp [capNL, h2]

theorem capNL_cons_other {c : Char} (hc : c ≠ '\n') (k : Nat) (rest : List Char) :
    capNL k (c :: rest) = c :: capNL 0 rest := by
  simp [capNL, hc]

theorem noTriple_cons_cons_cons (a b c : Char) (l : List Char) :
    noTripleNL (a :: b :: c :: l) =
      (!(a == '\n' && b == '\n' && c == '\n') && noTripleNL (b :: c :: l)) := rfl

theorem noTriple_tail {a : Char} {l : List Char} (h : noTripleNL (a :: l) = true) :
    noTripleNL l = true := by
  cases l with
  | nil => rfl
  | cons b t =>
    cases t with
    | nil => rfl
    | cons c u =>
      rw [noTriple_cons_cons_cons] at h
      exact (bool_and_mp h).2

theorem noTriple_append_left {y : List Char} :
    ∀ {x : List Char}, noTripleNL (x ++ y) = true → noTripleNL x = true := by
  intro x
  induction x with
  | nil => intro _; rfl
  | cons a x ih =>
    intro h
    cases x with
    | nil => rfl
    | cons b x' =>
      cases x' with
      | nil => rfl
      | cons c rest =>
        rw [List.cons_append, List.cons_append, List.cons_append,
          noTriple_cons_cons_cons] at h
        obtain ⟨hw, htail⟩ := bool_and_mp h
        rw [noTriple_cons_cons_cons]
        refine bool_and_mpr hw (ih ?_)
        rw [List.cons_append, List.cons_append]
        exact htail

theorem noTriple_append_right {y : List Char} :
    ∀ {x : List Char}, noTripleNL (x ++ y) = true → noTripleNL y = true := by
  intro x
  induction x with
  | nil => intro h; exact h
  | cons a x ih =>
    intro h
    exact ih (noTriple_tail (by rwa [List.cons_append] at h))

theorem leadNL_cons_nl (l : List Char) : leadNL ('\n' :: l) = leadNL l + 1 := by
  simp [leadNL, List.takeWhile_cons]

theorem leadNL_cons_other {c : Char} (hc : c ≠ '\n') (l : List Char) :
    leadNL (c :: l) = 0 := by
  simp [leadNL, List.takeWhile_cons, hc]

theorem noTriple_cons_nl {l : List Char} (ht : noTripleNL l = true) (hl : leadNL l ≤ 1) :
    noTripleNL ('\n' :: l) = true := by
  cases l with
  | nil => rfl
  | cons b t =>
    cases t with
    | nil => rfl
    | cons c u =>
      rw [noTriple_cons_cons_cons]
      refine bool_and_mpr ?_ ht
      by_cases hb : b = '\n'
      · subst hb
        rw [leadNL_cons_nl] at hl
        have hcu : leadNL (c :: u) = 0 := by omega
        have hcne : c ≠ '\n' := by
          intro hcc
          subst hcc
          rw [leadNL_cons_nl] at hcu
          omega
        simp [hcne]
      · simp [hb]

theorem noTriple_cons_other {c : Char} (hc : c ≠ '\n') {l : List Char}
    (ht : noTripleNL l = true) : noTripleNL (c :: l) = true := by
  cases l with
  | nil => rfl
  | cons b t =>
    cases t with
    | nil => rfl
    | cons d u =>
      rw [noTriple_cons_cons_cons]
      exact bool_and_mpr (by simp [hc]) ht

theorem capNL_invariant :
    ∀ (l : List Char) (k : Nat),
      noTripleNL (capNL k l) = true ∧ leadNL (capNL k l) + min k 2 ≤ 2 := by
  intro l
  induction l with
  | nil =>
    intro k
    refine ⟨rfl, ?_⟩
    simp only [capNL, leadNL, List.takeWhile_nil, List.length_nil]
    omega
  | cons c rest ih =>
    intro k
    by_cases hc : c = '\n'
    · subst hc
      by_cases h2 : 2 ≤ k
      · rw [capNL_cons_nl_ge _ _ h2]
        obtain ⟨ht, hl⟩ := ih k
        exact ⟨ht, by omega⟩
      · rw [capNL_cons_nl_lt _ _ h2]
        obtain ⟨ht, hl⟩ := ih (k + 1)
        refine ⟨noTriple_cons_nl ht (by omega), ?_⟩
        rw [leadNL_cons_nl]
        omega
    · rw [capNL_cons_other hc]
      obtain ⟨ht, _⟩ := ih 0
      exact ⟨noTriple_cons_other hc ht, by rw [leadNL_cons_other hc]; omega⟩

theorem noCR_replaceCR (l : List Char) : noCR (replaceCR l) = true := by
  rw [noCR, replaceCR, List.all_map]
  refine List.all_eq_true.mpr fun c _ => ?_
  by_cases hc : c = '\r' <;> simp [hc]

theorem noCR_capNL : ∀ (l : List Char) (k : Nat),
    noCR l = true → noCR (capNL k l) = true := by
  intro l
  induction l with
  | nil => intro k _; rfl
  | cons c rest ih =>
    intro k h
    rw [noCR, List.all_cons] at h
    obtain ⟨hc, hrest⟩ := bool_and_mp h
    by_cases hnl : c = '\n'
    · subst hnl
      by_cases h2 : 2 ≤ k
      · rw [capNL_cons_nl_ge _ _ h2]
        exact ih k hrest
      · rw [capNL_cons_nl_lt _ _ h2, noCR, List.all_cons]
        exact bool_and_mpr (by decide) (ih (k + 1) hrest)
    · rw [capNL_cons_other hnl, noCR, List.all_cons]
      exact bool_and_mpr hc (ih 0 hrest)

theorem all_of_subset {q : Char → Bool} {l₁ l₂ : List Char} (hs : l₁ ⊆ l₂)
    (h : l₂.all q = true) : l₁.all q = true :=
  List.all_eq_true.mpr fun x hx => List.all_eq_true.mp h x (hs hx)

theorem dropTrailing_append (p : Char → Bool) (l : List Char) :
    dropTrailing p l ++ (l.reverse.takeWhile p).reverse = l := by
  rw [dropTrailing, ← List.reverse_append, List.takeWhile_append_dropWhile,
    List.reverse_reverse]

theorem dropWhile_subset (p : Char → Bool) (l : List Char) : l.dropWhile p ⊆ l := by
  intro x hx
  rw [← List.takeWhile_append_dropWhile (p := p) (l := l)]
  exact List.mem_append_right _ hx

theorem dropTrailing_subset (p : Char → Bool) (l : List Char) : dropTrailing p l ⊆ l := by
  intro x hx
  rw [← dropTrailing_append p l]
  exact List.mem_append_left _ hx

theorem pyStrip_subset (l : List Char) : pyStrip l ⊆ l := by
  intro x hx
  exact dropWhile_subset isPySpace l (dropTrailing_subset isPySpace _ hx)

theorem noTriple_dropWhile {p : Char → Bool} {l : List Char} (h : noTripleNL l = true) :
    noTripleNL (l.dropWhile p) = true := by
  refine noTriple_append_right (x := l.takeWhile p) ?_
  rw [List.takeWhile_append_dropWhile]
  exact h

theorem noTriple_dropTrailing {p : Char → Bool} {l : List Char} (h : noTripleNL l = true) :
    noTripleNL (dropTrailing p l) = true := by
  refine noTriple_append_left (y := (l.reverse.takeWhile p).reverse) ?_
  rw [dropTrailing_append]
  exact h

theorem noTriple_pyStrip {l : List Char} (h : noTripleNL l = true) :
    noTripleNL (pyStrip l) = true :=
  noTriple_dropTrailing (noTriple_dropWhile h)

theorem head_dropWhile_false {p : Char → Bool} :
    ∀ (l : List Char) {c : Char}, (l.dropWhile p).head? = some c → p c = false := by
  intro l
  induction l with
  | nil => intro c h; simp at h
  | cons a rest ih =>
    intro c h
    rw [List.dropWhile_cons] at h
    split at h
    · exact ih h
    · rename_i hpa
      simp only [List.head?_cons, Option.some.injEq] at h
      subst h
      simpa using hpa

theorem head?_append_left {α : Type} {x : List α} (y : List α) (h : x ≠ []) :
    (x ++ y).head? = x.head? := by
  cases x with
  | nil => exact absurd rfl h
  | cons a t => rfl

theorem noEdgeSpace_pyStrip (l : List Char) : noEdgeSpace (pyStrip l) = true := by
  rw [noEdgeSpace]
  refine bool_and_mpr ?_ ?_
  · cases hh : (pyStrip l).head? with
    | none => rfl
    | some c =>
      have hne : pyStrip l ≠ [] := by
        intro hnil
        rw [hnil] at hh
        simp at hh
      have hne' : dropTrailing isPySpace (List.dropWhile isPySpace l) ≠ [] := hne
      have hx : (l.dropWhile isPySpace).head? = some c := by
        rw [← dropTrailing_append isPySpace (l.dropWhile isPySpace),
          head?_append_left _ hne']
        exact hh
      simp [head_dropWhile_false _ hx]
  · cases hh : (pyStrip l).getLast? with
    | none => rfl
    | some c =>
      have hx : ((l.dropWhile isPySpace).reverse.dropWhile isPySpace).head? = some c := by
        have hh' : (((l.dropWhile isPySpace).reverse.dropWhile isPySpace).reverse).getLast? =
            some c := hh
        rw [List.getLast?_reverse] at hh'
        exact hh'
      simp [head_dropWhile_false _ hx]

theorem replaceCRLF_of_noCR : ∀ {l : List Char}, noCR l = true → replaceCRLF l = l := by
  intro l
  induction l with
  | nil => intro _; rfl
  | cons c rest ih =>
    intro h
    rw [noCR, List.all_cons] at h
    obtain ⟨hc, hrest⟩ := bool_and_mp h
    have hcr : c ≠ '\r' := by simpa using hc
    cases rest with
    | nil => rfl
    | cons d rest' =>
      rw [replaceCRLF, if_neg (fun hcd => hcr hcd.1), ih hrest]

theorem replaceCR_of_noCR : ∀ {l : List Char}, noCR l = true → replaceCR l = l := by
  intro l
  induction l with
  | nil => intro _; rfl
  | cons c rest ih =>
    intro h
    rw [noCR, List.all_cons] at h
    obtain ⟨hc, hrest⟩ := bool_and_mp h
    have hcr : c ≠ '\r' := by simpa using hc
    rw [replaceCR, List.map_cons, if_neg hcr]
    have := ih hrest
    rw [replaceCR] at this
    rw [this]

theorem capNL_of_noTriple :
    ∀ (l : List Char) (k : Nat), k ≤ 2 →
      noTripleNL (List.replicate k '\n' ++ l) = true → capNL k l = l := by
  intro l
  induction l with
  | nil => intro k _ _; rfl
  | cons c rest ih =>
    intro k hk h
    by_cases hc : c = '\n'
    · subst hc
      by_cases h2 : 2 ≤ k
      · exfalso
        have hk2 : k = 2 := by omega
        subst hk2
        simp [List.replicate_succ, noTripleNL] at h
      · rw [capNL_cons_nl_lt _ _ h2]
        congr 1
        refine ih (k + 1) (by omega) ?_
        have hsh : List.replicate (k + 1) '\n' ++ rest =
            List.replicate k '\n' ++ ('\n' :: rest) := by
          rw [List.replicate_succ']
          simp [List.append_assoc]
        rw [hsh]
        exact h
    · rw [capNL_cons_other hc]
      congr 1
      refine ih 0 (by omega) ?_
      simp only [List.replicate, List.nil_append]
      exact noTriple_tail (noTriple_append_right h)

theorem dropWhile_of_head {p : Char → Bool} {l : List Char}
    (h : (l.head?.all fun c => !p c) = true) : l.dropWhile p = l := by
  cases l with
  | nil => rfl
  | cons a t =>
    simp only [List.head?_cons, Option.all_some, Bool.not_eq_true'] at h
    rw [List.dropWhile_cons, if_neg (by simp [h])]

theorem pyStrip_of_noEdge {l : List Char} (h : noEdgeSpace l = true) : pyStrip l = l := by
  rw [noEdgeSpace] at h
  obtain ⟨h1, h2⟩ := bool_and_mp h
  rw [pyStrip, dropWhile_of_head h1, dropTrailing, dropWhile_of_head
    (by rw [List.head?_reverse]; exact h2), List.reverse_reverse]

theorem cleanup_text_props (s : String) :
    noCR (cleanup_text s).data = true ∧ noTripleNL (cleanup_text s).data = true ∧
      noEdgeSpace (cleanup_text s).data = true := by
  rw [cleanup_text]
  split_ifs with hs
  · exact ⟨rfl, rfl, rfl⟩
  · refine ⟨?_, ?_, ?_⟩
    · exact all_of_subset (pyStrip_subset _)
        (noCR_capNL _ 0 (noCR_replaceCR (replaceCRLF s.data)))
    · exact noTriple_pyStrip (capNL_invariant (replaceCR (replaceCRLF s.data)) 0).1
    · exact noEdgeSpace_pyStrip _

theorem cleanup_text_fixed {s : String} (h1 : noCR s.data = true)
    (h2 : noTripleNL s.data = true) (h3 : noEdgeSpace s.data = true) :
    cleanup_text s = s := by
  rw [cleanup_text]
  split_ifs with hs
  · exact hs.symm
  · rw [replaceCRLF_of_noCR h1, replaceCR_of_noCR h1,
      capNL_of_noTriple s.data 0 (by omega) (by simpa using h2),
      pyStrip_of_noEdge h3]

/-- C4 counterexample: the input "a\n\n\nb" contains a run of exactly
two consecutive blank lines (three newline characters), which the
claim says the normalizer preserves unchanged; the normalizer in fact
collapses it to a single blank line. -/
theorem blank_line_run_counterexample :
    cleanup_text "a\n\n\nb" = "a\n\nb" ∧ cleanup_text "a\n\n\nb" ≠ "a\n\n\nb" := by
  constructor
  · decide
  · decide

theorem unify_eq_aux : ∀ (n : Nat) (l : List Char), l.length ≤ n →
    replaceCR (replaceCRLF l) = unifyNewlinesSpec l := by
  intro n
  induction n with
  | zero =>
    intro l hl
    have hnil : l = [] := List.length_eq_zero.mp (by omega)
    subst hnil
    rfl
  | succ n ih =>
    intro l hl
    cases l with
    | nil => rfl
    | cons c rest =>
      cases rest with
      | nil =>
        by_cases hc : c = '\r' <;>
          simp [replaceCRLF, replaceCR, unifyNewlinesSpec, hc]
      | cons d rest' =>
        by_cases hcd : c = '\r' ∧ d = '\n'
        · rw [replaceCRLF, if_pos hcd, unifyNewlinesSpec, if_pos hcd,
            replaceCR, List.map_cons, if_neg (by decide)]
          have hlen : rest'.length ≤ n := by
            simp only [List.length_cons] at hl
            omega
          rw [show (replaceCRLF rest').map (fun c => if c = '\r' then '\n' else c) =
              replaceCR (replaceCRLF rest') from rfl, ih rest' hlen]
        · rw [replaceCRLF, if_neg hcd, unifyNewlinesSpec, if_neg hcd,
            replaceCR, List.map_cons]
          have hlen : (d :: rest').length ≤ n := by
            simp only [List.length_cons] at hl ⊢
            omega
          rw [show (replaceCRLF (d :: rest')).map (fun c => if c = '\r' then '\n' else c) =
              replaceCR (replaceCRLF (d :: rest')) from rfl, ih (d :: rest') hlen]

theorem unify_eq (l : List Char) :
    replaceCR (replaceCRLF l) = unifyNewlinesSpec l :=
  unify_eq_aux l.length l le_rfl

theorem capNL_run : ∀ (l : List Char) (k : Nat), k ≤ 2 →
    capNL k l = List.replicate (min (leadNL l) (2 - k)) '\n' ++
      capNL 0 (l.dropWhile (fun d => d == '\n')) := by
  intro l
  induction l with
  | nil =>
    intro k hk
    simp [capNL, leadNL]
  | cons c rest ih =>
    intro k hk
    by_cases hc : c = '\n'
    · subst hc
      rw [leadNL_cons_nl, List.dropWhile_cons, if_pos (by decide)]
      by_cases h2 : 2 ≤ k
      · have hk2 : k = 2 := by omega
        subst hk2
        rw [capNL_cons_nl_ge _ _ (by omega), ih 2 (by omega)]
        have hz : ∀ m : Nat, min m (2 - 2) = 0 := by intro m; omega
        rw [hz, hz]
      · rw [capNL_cons_nl_lt _ _ h2, ih (k + 1) (by omega)]
        have hmin : min (leadNL rest + 1) (2 - k) = min (leadNL rest) (2 - (k + 1)) + 1 := by
          omega
        rw [hmin, List.replicate_succ, List.cons_append]
    · have hcc : (c == '\n') = false := by simp [hc]
      rw [capNL_cons_other hc, leadNL_cons_other hc, List.dropWhile_cons, hcc]
      simp only [Bool.false_eq_true, if_false]
      have hz : min 0 (2 - k) = 0 := by omega
      rw [hz, List.replicate_zero, List.nil_append, capNL_cons_other hc]

theorem collapseRunsSpec_nil : collapseRunsSpec [] = [] := by
  simp only [collapseRunsSpec]

theorem collapseRunsSpec_cons_nl (rest : List Char) :
    collapseRunsSpec ('\n' :: rest) =
      List.replicate (min (1 + leadNL rest) 2) '\n' ++
        collapseRunsSpec (rest.dropWhile (fun d => d == '\n')) := by
  simp only [collapseRunsSpec]
  simp

theorem collapseRunsSpec_cons_other {c : Char} (hc : c ≠ '\n') (rest : List Char) :
    collapseRunsSpec (c :: rest) = c :: collapseRunsSpec rest := by
  simp only [collapseRunsSpec]
  simp [hc]

theorem capNL_eq_collapse_aux : ∀ (n : Nat) (l : List Char), l.length ≤ n →
    capNL 0 l = collapseRunsSpec l := by
  intro n
  induction n with
  | zero =>
    intro l hl
    have hnil : l = [] := List.length_eq_zero.mp (by omega)
    subst hnil
    rw [collapseRunsSpec_nil]
    rfl
  | succ n ih =>
    intro l hl
    cases l with
    | nil =>
      rw [collapseRunsSpec_nil]
      rfl
    | cons c rest =>
      by_cases hc : c = '\n'
      · subst hc
        rw [capNL_run ('\n' :: rest) 0 (by omega), leadNL_cons_nl,
          List.dropWhile_cons, if_pos (by decide), collapseRunsSpec_cons_nl]
        have hle := congrArg List.length
          (List.takeWhile_append_dropWhile (p := fun d => d == '\n') (l := rest))
        rw [List.length_append] at hle
        have hlen : (rest.dropWhile (fun d => d == '\n')).length ≤ n := by
          simp only [List.length_cons] at hl
          omega
        rw [ih _ hlen]
        have hmin : min (leadNL rest + 1) (2 - 0) = min (1 + leadNL rest) 2 := by
          omega
        rw [hmin]
      · rw [capNL_cons_other hc, collapseRunsSpec_cons_other hc]
        have hlen : rest.length ≤ n := by
          simp only [List.length_cons] at hl
          omega
        rw [ih rest hlen]

theorem capNL_eq_collapse (l : List Char) : capNL 0 l = collapseRunsSpec l :=
  capNL_eq_collapse_aux l.length l le_rfl

/-- C4 amended: for every input, the normalizer computes exactly the
specified pipeline — unify the line-ending styles \r\n and \r to \n,
collapse every maximal run of three or more consecutive newline
characters to exactly two while preserving runs of one or two
newlines and copying all other characters in order, then trim leading
and trailing whitespace — and any input already in this normal form
is returned unchanged. -/
theorem text_normalizer_amended (s : String) :
    cleanup_text s = ⟨pyStrip (collapseRunsSpec (unifyNewlinesSpec s.data))⟩ ∧
    (noCR s.data = true → noTripleNL s.data = true → noEdgeSpace s.data = true →
      cleanup_text s = s) := by
  constructor
  · rw [cleanup_text]
    split_ifs with hs
    · rw [hs]
      rw [show unifyNewlinesSpec ("" : String).data = [] from rfl, collapseRunsSpec_nil]
      rfl
    · rw [unify_eq s.data, capNL_eq_collapse]
  · exact fun h1 h2 h3 => cleanup_text_fixed h1 h2 h3

/-- C4 witness: the theorem instantiated at "x \r\na\n\n\n\nb": the
normalizer output equals the spec pipeline's output "x \na\n\nb"
(trimmed, line endings unified, the four-newline run collapsed to
two), and the already-normal input "a\n\nb" passes through
unchanged. -/
theorem text_normalizer_amended_witness :
    (cleanup_text "x \r\na\n\n\n\nb" =
        ⟨pyStrip (collapseRunsSpec (unifyNewlinesSpec "x \r\na\n\n\n\nb".data))⟩ ∧
      cleanup_text "x \r\na\n\n\n\nb" = "x \na\n\nb") ∧
    (noCR "a\n\nb".data = true ∧ noTripleNL "a\n\nb".data = true ∧
      noEdgeSpace "a\n\nb".data = true) ∧
    cleanup_text "a\n\nb" = "a\n\nb" :=
  ⟨⟨(text_normalizer_amended "x \r\na\n\n\n\nb").1, by decide⟩,
    ⟨by decide, by decide, by decide⟩,
    (text_normalizer_amended "a\n\nb").2 (by decide) (by decide) (by decide)⟩

/-- C9: the text normalizer is idempotent — applying the cleanup to
its own output yields the same text as applying it once. -/
theorem cleanup_text_idempotent (s : String) :
    cleanup_text (cleanup_text s) = cleanup_text s := by
  obtain ⟨h1, h2, h3⟩ := cleanup_text_props s
  exact cleanup_text_fixed h1 h2 h3

/-- C8 witness: a self-referential button and a mailto button are both
suppressed, giving the empty link and label. -/
theorem self_and_mailto_links_suppressed_witness :
    (∀ a ∈ ([⟨"https://www.nycforfree.co/about", "More"⟩,
        ⟨"mailto:hi@example.org", ""⟩] : List Anchor),
      startsWithS "https://www.nycforfree.co"
        (normalize_href (fun _ r => r) "https://www.nycforfree.co" (pyStripS a.href)) = true ∨
      startsWithS "mailto:"
        (normalize_href (fun _ r => r) "https://www.nycforfree.co" (pyStripS a.href)) = true ∨
      startsWithS "tel:"
        (normalize_href (fun _ r => r) "https://www.nycforfree.co" (pyStripS a.href)) = true) ∧
    extract_external_link (fun _ r => r) "https://www.nycforfree.co"
      [⟨"https://www.nycforfree.co/about", "More"⟩, ⟨"mailto:hi@example.org", ""⟩] =
      ("", "") :=
  ⟨by decide,
    self_and_mailto_links_suppressed (fun _ r => r) "https://www.nycforfree.co"
      [⟨"https://www.nycforfree.co/about", "More"⟩, ⟨"mailto:hi@example.org", ""⟩]
      (by decide)⟩
